import Mathlib

/-!
Verification of the table-extraction scanner in `hanair_data/table_updater.py`.

The Python class `_TableParser` (a subclass of the standard library's
`HTMLParser`) receives a stream of markup events — start tags, end tags,
self-closing tags and text data — and accumulates the rows of one target
table.  We embed that event stream as the inductive type `Event` and the
mutable parser object as the structure `ScannerState`; each `handle_*`
method becomes a pure state-transition function translated line by line
from the source.  The HTML tokenizer itself belongs to the Python standard
library, not to this repository, so markup is modelled at the event level.

String helpers (`pyStrip`, `pySplitWs`, `pySplitlines`, …) embed the Python
string methods `str.strip()`, `str.split()` and `str.splitlines()` used by
`handle_endtag`, over `String.data` character lists.
-/

namespace HanairData

/-- Characters treated as whitespace by Python's `str.strip()` and
`str.split()` (Unicode whitespace, which includes the control characters
`\x1c`-`\x1f`, `\x85`, the no-break space `\xa0` and the Unicode space
separators). -/
def isPySpace (c : Char) : Bool :=
  c == ' ' || c == '\t' || c == '\n' || c.toNat == 0x0b || c.toNat == 0x0c ||
  c == '\r' || c.toNat == 0x1c || c.toNat == 0x1d || c.toNat == 0x1e ||
  c.toNat == 0x1f || c.toNat == 0x85 || c.toNat == 0xa0 || c.toNat == 0x1680 ||
  (0x2000 ≤ c.toNat && c.toNat ≤ 0x200a) || c.toNat == 0x2028 ||
  c.toNat == 0x2029 || c.toNat == 0x202f || c.toNat == 0x205f || c.toNat == 0x3000

/-- Line boundaries of Python's `str.splitlines()` other than `\r`
(carriage return is handled separately so that `\r\n` counts as a single
boundary). -/
def isLineBreak (c : Char) : Bool :=
  c == '\n' || c.toNat == 0x0b || c.toNat == 0x0c || c.toNat == 0x1c ||
  c.toNat == 0x1d || c.toNat == 0x1e || c.toNat == 0x85 ||
  c.toNat == 0x2028 || c.toNat == 0x2029

/-- Python `str.strip()` on a character list: drop leading and trailing
whitespace. -/
def stripChars (l : List Char) : List Char :=
  List.rdropWhile isPySpace (List.dropWhile isPySpace l)

/-- Python `str.strip()`. -/
def pyStrip (s : String) : String := String.mk (stripChars s.data)

/-- Worker for Python `str.split()` with no separator: split on runs of
whitespace, discarding empty pieces.  `acc` holds the characters of the
current word in reverse. -/
def splitWsAux : List Char → List Char → List (List Char)
  | [], acc => if acc.isEmpty then [] else [acc.reverse]
  | c :: cs, acc =>
    if isPySpace c then
      if acc.isEmpty then splitWsAux cs [] else acc.reverse :: splitWsAux cs []
    else splitWsAux cs (c :: acc)

/-- Python `str.split()` with no separator. -/
def pySplitWs (s : String) : List String := (splitWsAux s.data []).map String.mk

/-- Worker for Python `str.splitlines()`.  `acc` holds the characters of the
current line in reverse; a trailing line boundary does not create a final
empty line. -/
def splitlinesAux : List Char → List Char → List (List Char)
  | [], acc => if acc.isEmpty then [] else [acc.reverse]
  | c :: cs, acc =>
    if c = '\r' then
      match cs with
      | [] => [acc.reverse]
      | c2 :: cs2 =>
        if c2 = '\n' then acc.reverse :: splitlinesAux cs2 []
        else acc.reverse :: splitlinesAux (c2 :: cs2) []
    else if isLineBreak c then acc.reverse :: splitlinesAux cs []
    else splitlinesAux cs (c :: acc)

/-- Python `str.splitlines()`. -/
def pySplitlines (s : String) : List String := (splitlinesAux s.data []).map String.mk

/-- Join character lists with a single separator character between them,
as Python `sep.join(...)` for a one-character separator. -/
def intercalChar (sep : Char) : List (List Char) → List Char
  | [] => []
  | [l] => l
  | l :: ls => l ++ sep :: intercalChar sep ls

/-- Python `"\n".join(lines)`. -/
def joinNl (lines : List String) : String :=
  String.mk (intercalChar '\n' (lines.map String.data))

/-- Python `" ".join(words)`. -/
def joinSp (words : List String) : String :=
  String.mk (intercalChar ' ' (words.map String.data))

/-- Python `"".join(parts)`. -/
def joinParts (parts : List String) : String :=
  String.mk (parts.map String.data).flatten

/-- Python `str.lower()`.  Tag names delivered by `HTMLParser` are ASCII, so
the ASCII character lowering suffices. -/
def pyLower (s : String) : String :=
  String.mk (s.data.map Char.toLower)

/-- Python `"\n" in s` (for the single character `\n`). -/
def hasNl (s : String) : Bool := s.data.any (fun c => c == '\n')

/-- The no-break space character `\xa0`. -/
def nbsp : Char := Char.ofNat 0xa0

/-- Python `s.replace("\xa0", " ")` — a single-character replacement, so a
character map. -/
def replaceNbsp (s : String) : String :=
  String.mk (s.data.map (fun c => if c = nbsp then ' ' else c))

/-- The cell finalization performed by `_TableParser.handle_endtag` on a
`td`/`th` end tag:

```
text = "".join(self._cell_parts).replace("\xa0", " ")
text = "\n".join(part.strip() for part in text.splitlines())
text = " ".join(text.split()) if "\n" not in text else text
self._current_row.append(text.strip())
```
-/
def finalizeCell (parts : List String) : String :=
  let text1 := replaceNbsp (joinParts parts)
  let text2 := joinNl ((pySplitlines text1).map pyStrip)
  let text3 := if hasNl text2 then text2 else joinSp (pySplitWs text2)
  pyStrip text3

/-- The markup events delivered by the standard library `HTMLParser` to the
overridden handlers of `_TableParser`. -/
inductive Event where
  | startTag (tag : String)
  | endTag (tag : String)
  | data (s : String)
  | startEndTag (tag : String)
deriving DecidableEq, Repr

/-- The mutable state of a `_TableParser` instance: one field per `self._*`
attribute set in `_TableParser.__init__`. -/
structure ScannerState where
  target_index : Int
  current_index : Int
  capture : Bool
  table_depth : Int
  in_row : Bool
  in_cell : Bool
  rows : List (List String)
  current_row : List String
  cell_parts : List String
deriving DecidableEq, Repr

/-- The field values assigned by `_TableParser.__init__` (after the negative
index check has passed). -/
def initStateOf (target_index : Int) : ScannerState :=
  { target_index := target_index, current_index := -1, capture := false,
    table_depth := 0, in_row := false, in_cell := false, rows := [],
    current_row := [], cell_parts := [] }

/-- `_TableParser.__init__`: raises `ValueError` for a negative index,
otherwise initializes the accumulator fields. -/
def initScanner (target_index : Int) : Except String ScannerState :=
  if target_index < 0 then Except.error "table index must be >= 0"
  else Except.ok (initStateOf target_index)

/-- `_TableParser.handle_starttag`. -/
def handle_starttag (st : ScannerState) (tag : String) : ScannerState :=
  let t := pyLower tag
  if t = "table" then
    let st1 : ScannerState := { st with current_index := st.current_index + 1 }
    if st1.current_index = st1.target_index then
      { st1 with capture := true, table_depth := 1 }
    else if st1.capture = true then
      { st1 with table_depth := st1.table_depth + 1 }
    else
      st1
  else if st.capture = false then
    st
  else if t = "tr" then
    { st with in_row := true, current_row := [] }
  else if t = "td" ∨ t = "th" then
    { st with in_cell := true, cell_parts := [] }
  else if t = "br" ∧ st.in_cell = true then
    { st with cell_parts := st.cell_parts ++ ["\n"] }
  else
    st

/-- `_TableParser.handle_endtag`. -/
def handle_endtag (st : ScannerState) (tag0 : String) : ScannerState :=
  let tag := pyLower tag0
  if tag = "table" ∧ st.capture = true then
    let st1 : ScannerState := { st with table_depth := st.table_depth - 1 }
    if st1.table_depth = 0 then { st1 with capture := false } else st1
  else if st.capture = false then
    st
  else if (tag = "td" ∨ tag = "th") ∧ st.in_cell = true then
    { st with current_row := st.current_row ++ [finalizeCell st.cell_parts],
              in_cell := false, cell_parts := [] }
  else if tag = "tr" ∧ st.in_row = true then
    let st1 : ScannerState :=
      if st.current_row ≠ [] then { st with rows := st.rows ++ [st.current_row] }
      else st
    { st1 with in_row := false, current_row := [] }
  else
    st

/-- `_TableParser.handle_data`. -/
def handle_data (st : ScannerState) (d : String) : ScannerState :=
  if st.capture = true ∧ st.in_cell = true then
    { st with cell_parts := st.cell_parts ++ [d] }
  else
    st

/-- `_TableParser.handle_startendtag`. -/
def handle_startendtag (st : ScannerState) (tag : String) : ScannerState :=
  if pyLower tag = "br" ∧ st.capture = true ∧ st.in_cell = true then
    { st with cell_parts := st.cell_parts ++ ["\n"] }
  else
    st

/-- Dispatch one markup event to the corresponding handler, as `HTMLParser`
does while feeding. -/
def step (st : ScannerState) : Event → ScannerState
  | Event.startTag t => handle_starttag st t
  | Event.endTag t => handle_endtag st t
  | Event.data d => handle_data st d
  | Event.startEndTag t => handle_startendtag st t

/-- Feed a whole event stream, as `parser.feed(html)`. -/
def runEvents (st : ScannerState) (es : List Event) : ScannerState :=
  es.foldl step st

/-- Does an event open a table (a start tag whose lowered name is
`table`)? -/
def isTableStart : Event → Bool
  | Event.startTag t => pyLower t == "table"
  | _ => false

/-- Number of table start tags in an event stream (the number of tables the
scanner can see). -/
def numTables (es : List Event) : Nat :=
  es.countP isTableStart

/-- The parsing and error-raising logic of `fetch_table_rows` after the
download: construct the parser (which raises `ValueError` on a negative
index), feed the decoded markup, and raise `ValueError` if no rows were
captured.  The network fetch and HTML tokenization are outside this
repository; the markup is modelled as its event stream. -/
def fetch_table_rows (events : List Event) (table_index : Int) :
    Except String (List (List String)) :=
  match initScanner table_index with
  | Except.error e => Except.error e
  | Except.ok st0 =>
    let stF := runEvents st0 events
    if stF.rows = [] then
      Except.error
        "No table rows were found. Check that the page structure has not changed."
    else
      Except.ok stF.rows

/-! ### Well-formed table markup and the rows the scanner should produce

These model the markup shapes that the claims quantify over: tables made of
rows made of cells, rendered to the event stream the standard tokenizer
would deliver. -/

/-- Atomic pieces of markup inside one table cell: a text fragment or a
line-break tag. -/
inductive CellTok where
  | txt (s : String)
  | br
deriving DecidableEq, Repr

/-- A cell of well-formed table markup. -/
abbrev Cell := List CellTok

/-- A row of well-formed table markup: a list of cells. -/
abbrev Row := List Cell

/-- A table of well-formed table markup: a list of rows. -/
abbrev Table := List Row

/-- The markup event of one cell piece. -/
def renderTok : CellTok → Event
  | CellTok.txt s => Event.data s
  | CellTok.br => Event.startTag "br"

/-- The text fragment one cell piece contributes to `cell_parts`. -/
def tokText : CellTok → String
  | CellTok.txt s => s
  | CellTok.br => "\n"

/-- Markup events of one cell: a `td` element. -/
def renderCell (c : Cell) : List Event :=
  Event.startTag "td" :: (c.map renderTok ++ [Event.endTag "td"])

/-- Markup events of one row: a `tr` element. -/
def renderRow (r : Row) : List Event :=
  Event.startTag "tr" :: ((r.map renderCell).flatten ++ [Event.endTag "tr"])

/-- Markup events of one table (with no nested table). -/
def renderTable (t : Table) : List Event :=
  Event.startTag "table" :: ((t.map renderRow).flatten ++ [Event.endTag "table"])

/-- Markup events of a sequence of sibling tables. -/
def renderTables (ts : List Table) : List Event :=
  (ts.map renderTable).flatten

/-- The finalized text of one cell. -/
def evalCell (c : Cell) : String := finalizeCell (c.map tokText)

/-- The finalized cell strings of one row. -/
def evalRow (r : Row) : List String := r.map evalCell

/-- The row sequence belonging to one table: its rows in order, each cell
finalized, rows without cells dropped. -/
def tableRows : Table → List (List String)
  | [] => []
  | r :: rs => (if r = [] then [] else [evalRow r]) ++ tableRows rs

/-- The rows contributed by the sibling table at (zero-based, possibly out
of range or negative) position `k`. -/
def selectedRows : List Table → Int → List (List String)
  | [], _ => []
  | t :: ts, k => if k = 0 then tableRows t else selectedRows ts (k - 1)

/-- Cell normalization following the wording of the spec (claim C2):
replace non-breaking spaces with plain spaces, split on line separators,
trim each resulting line, rejoin with line separators if multiple lines
existed, and otherwise collapse all whitespace runs to single spaces.  (The
wording mentions no final trim of the rejoined multi-line text.) -/
def specCellText (parts : List String) : String :=
  let text := replaceNbsp (joinParts parts)
  let lines := (pySplitlines text).map pyStrip
  if 2 ≤ lines.length then joinNl lines else joinSp (pySplitWs (joinNl lines))

/-- Invariant of every reachable scanner state: while capturing, the target
table has been reached and the nesting depth is at least one. -/
def CaptureInv (st : ScannerState) : Prop :=
  st.capture = true → st.target_index ≤ st.current_index ∧ 1 ≤ st.table_depth

/-- Invariant: every cell string already stored in the output rows or in the
current row accumulator is stripped. -/
def StrippedInv (st : ScannerState) : Prop :=
  (∀ r ∈ st.rows, ∀ c ∈ r, pyStrip c = c) ∧ (∀ c ∈ st.current_row, pyStrip c = c)

/-! ### Example inputs used in witness instantiations -/

/-- Two sibling tables: the first with one row, the second with two rows. -/
def tablesEx : List Table :=
  [[[[CellTok.txt "A"]]],
   [[[CellTok.txt "X"], [CellTok.txt "Y"]], [[CellTok.txt "Z"]]]]

/-- The scanner state after the target table 0 has just been opened. -/
def stEx : ScannerState :=
  { target_index := 0, current_index := 0, capture := true, table_depth := 1,
    in_row := false, in_cell := false, rows := [], current_row := [],
    cell_parts := [] }

/-- An initial state with one already-captured (non-empty) row. -/
def stRowsEx : ScannerState :=
  { initStateOf 0 with rows := [["A"]] }

/-- Events of one table with one row and one cell holding padded text, used
in the C9 witness. -/
def c9Events : List Event :=
  [Event.startTag "table", Event.startTag "tr", Event.startTag "td",
   Event.data " A ", Event.endTag "td", Event.endTag "tr", Event.endTag "table"]

/-! ### Evaluation lemmas for the handlers at the concrete tag names -/

@[simp] lemma pyLower_table : pyLower "table" = "table" := by decide

@[simp] lemma pyLower_tr : pyLower "tr" = "tr" := by decide

@[simp] lemma pyLower_td : pyLower "td" = "td" := by decide

@[simp] lemma pyLower_th : pyLower "th" = "th" := by decide

@[simp] lemma pyLower_br : pyLower "br" = "br" := by decide

lemma starttag_table_hit (st : ScannerState)
    (h : st.current_index + 1 = st.target_index) :
    handle_starttag st "table" =
      { st with current_index := st.current_index + 1, capture := true,
                table_depth := 1 } := by
  simp [handle_starttag, h]

lemma starttag_table_miss (st : ScannerState) (hc : st.capture = false)
    (h : ¬ st.current_index + 1 = st.target_index) :
    handle_starttag st "table" = { st with current_index := st.current_index + 1 } := by
  simp [handle_starttag, hc, h]

lemma starttag_table_nested (st : ScannerState) (hc : st.capture = true)
    (h : ¬ st.current_index + 1 = st.target_index) :
    handle_starttag st "table" =
      { st with current_index := st.current_index + 1,
                table_depth := st.table_depth + 1 } := by
  simp [handle_starttag, hc, h]

lemma starttag_tr (st : ScannerState) (hc : st.capture = true) :
    handle_starttag st "tr" = { st with in_row := true, current_row := [] } := by
  simp [handle_starttag, hc]

lemma starttag_td (st : ScannerState) (hc : st.capture = true) :
    handle_starttag st "td" = { st with in_cell := true, cell_parts := [] } := by
  simp [handle_starttag, hc]

lemma starttag_br_in_cell (st : ScannerState) (hc : st.capture = true)
    (hic : st.in_cell = true) :
    handle_starttag st "br" = { st with cell_parts := st.cell_parts ++ ["\n"] } := by
  simp [handle_starttag, hc, hic]

lemma starttag_skip (st : ScannerState) (tag : String) (hc : st.capture = false)
    (h : ¬ pyLower tag = "table") :
    handle_starttag st tag = st := by
  simp [handle_starttag, hc, h]

lemma endtag_table_capture (st : ScannerState) (hc : st.capture = true) :
    handle_endtag st "table" =
      (if st.table_depth - 1 = 0 then
        { st with table_depth := st.table_depth - 1, capture := false }
      else
        { st with table_depth := st.table_depth - 1 }) := by
  simp [handle_endtag, hc]

lemma endtag_td (st : ScannerState) (hc : st.capture = true) (hic : st.in_cell = true) :
    handle_endtag st "td" =
      { st with current_row := st.current_row ++ [finalizeCell st.cell_parts],
                in_cell := false, cell_parts := [] } := by
  simp [handle_endtag, hc, hic]

lemma endtag_tr (st : ScannerState) (hc : st.capture = true) (hir : st.in_row = true) :
    handle_endtag st "tr" =
      { st with rows := st.rows ++ (if st.current_row = [] then [] else [st.current_row]),
                in_row := false, current_row := [] } := by
  by_cases hcr : st.current_row = [] <;> simp [handle_endtag, hc, hir, hcr]

lemma endtag_skip (st : ScannerState) (tag : String) (hc : st.capture = false) :
    handle_endtag st tag = st := by
  simp [handle_endtag, hc]

lemma data_append (st : ScannerState) (d : String) (hc : st.capture = true)
    (hic : st.in_cell = true) :
    handle_data st d = { st with cell_parts := st.cell_parts ++ [d] } := by
  simp [handle_data, hc, hic]

lemma data_skip (st : ScannerState) (d : String)
    (h : st.capture = false ∨ st.in_cell = false) :
    handle_data st d = st := by
  rcases h with h | h <;> simp [handle_data, h]

lemma startendtag_br (st : ScannerState) (hc : st.capture = true)
    (hic : st.in_cell = true) :
    handle_startendtag st "br" = { st with cell_parts := st.cell_parts ++ ["\n"] } := by
  simp [handle_startendtag, hc, hic]

lemma startendtag_skip (st : ScannerState) (tag : String) (hc : st.capture = false) :
    handle_startendtag st tag = st := by
  simp [handle_startendtag, hc]

lemma runEvents_nil (st : ScannerState) : runEvents st [] = st := rfl

lemma runEvents_cons (st : ScannerState) (e : Event) (es : List Event) :
    runEvents st (e :: es) = runEvents (step st e) es := rfl

lemma runEvents_append (st : ScannerState) (es1 es2 : List Event) :
    runEvents st (es1 ++ es2) = runEvents (runEvents st es1) es2 :=
  List.foldl_append ..

/-! ### Running the scanner over well-formed markup -/

lemma run_cellToks (c : Cell) (st : ScannerState) (hc : st.capture = true)
    (hic : st.in_cell = true) :
    runEvents st (c.map renderTok) =
      { st with cell_parts := st.cell_parts ++ c.map tokText } := by
  induction c generalizing st with
  | nil => simp [runEvents_nil]
  | cons tok c ih =>
    cases tok with
    | txt s =>
      rw [List.map_cons, runEvents_cons]
      simp only [step, renderTok]
      rw [data_append st s hc hic]
      rw [ih { st with cell_parts := st.cell_parts ++ [s] } hc hic]
      simp [tokText]
    | br =>
      rw [List.map_cons, runEvents_cons]
      simp only [step, renderTok]
      rw [starttag_br_in_cell st hc hic]
      rw [ih { st with cell_parts := st.cell_parts ++ ["\n"] } hc hic]
      simp [tokText]

lemma run_renderCell (c : Cell) (st : ScannerState) (hc : st.capture = true) :
    runEvents st (renderCell c) =
      { st with current_row := st.current_row ++ [evalCell c],
                in_cell := false, cell_parts := [] } := by
  unfold renderCell
  rw [runEvents_cons]
  simp only [step]
  rw [starttag_td st hc, runEvents_append]
  rw [run_cellToks c { st with in_cell := true, cell_parts := [] } hc rfl]
  rw [runEvents_cons, runEvents_nil]
  simp only [step]
  rw [endtag_td { st with in_cell := true, cell_parts := [] ++ c.map tokText } hc rfl]
  simp [evalCell]

lemma run_cells (cs : Row) (st : ScannerState) (hc : st.capture = true)
    (hic : st.in_cell = false) (hcp : st.cell_parts = []) :
    runEvents st (cs.map renderCell).flatten =
      { st with current_row := st.current_row ++ cs.map evalCell } := by
  induction cs generalizing st with
  | nil => simp [runEvents_nil]
  | cons c cs ih =>
    rw [List.map_cons, List.flatten_cons, runEvents_append]
    rw [run_renderCell c st hc]
    rw [ih { st with current_row := st.current_row ++ [evalCell c],
                     in_cell := false, cell_parts := [] } hc rfl rfl]
    simp [hic, hcp, List.append_assoc]

lemma run_renderRow (r : Row) (st : ScannerState) (hc : st.capture = true)
    (hic : st.in_cell = false) (hcp : st.cell_parts = []) :
    runEvents st (renderRow r) =
      { st with rows := st.rows ++ (if r = [] then [] else [evalRow r]),
                in_row := false, current_row := [] } := by
  unfold renderRow
  rw [runEvents_cons]
  simp only [step]
  rw [starttag_tr st hc, runEvents_append]
  rw [run_cells r { st with in_row := true, current_row := [] } hc hic hcp]
  rw [runEvents_cons, runEvents_nil]
  simp only [step]
  rw [endtag_tr { st with in_row := true, current_row := [] ++ r.map evalCell } hc rfl]
  by_cases hr : r = [] <;> simp [hr, evalRow]

lemma run_rows (t : Table) (st : ScannerState) (hc : st.capture = true)
    (hir : st.in_row = false) (hic : st.in_cell = false)
    (hcr : st.current_row = []) (hcp : st.cell_parts = []) :
    runEvents st (t.map renderRow).flatten =
      { st with rows := st.rows ++ tableRows t } := by
  induction t generalizing st with
  | nil => simp [runEvents_nil, tableRows]
  | cons r rs ih =>
    rw [List.map_cons, List.flatten_cons, runEvents_append]
    rw [run_renderRow r st hc hic hcp]
    rw [ih { st with rows := st.rows ++ (if r = [] then [] else [evalRow r]),
                     in_row := false, current_row := [] } hc rfl hic rfl hcp]
    simp [hir, hcr, tableRows, List.append_assoc]

lemma step_skip (st : ScannerState) (e : Event) (hc : st.capture = false)
    (hT : isTableStart e = false) : step st e = st := by
  cases e with
  | startTag t =>
    refine starttag_skip st t hc ?_
    simpa [isTableStart] using hT
  | endTag t => exact endtag_skip st t hc
  | data d => exact data_skip st d (Or.inl hc)
  | startEndTag t => exact startendtag_skip st t hc

lemma run_skip (es : List Event) (st : ScannerState) (hc : st.capture = false)
    (hT : ∀ e ∈ es, isTableStart e = false) : runEvents st es = st := by
  induction es with
  | nil => rfl
  | cons e es ih =>
    rw [runEvents_cons, step_skip st e hc (hT e (by simp))]
    exact ih fun e he => hT e (by simp [he])

lemma isTableStart_renderTok (tok : CellTok) : isTableStart (renderTok tok) = false := by
  cases tok with
  | txt s => rfl
  | br => decide

lemma no_tableStart_interior (t : Table) :
    ∀ e ∈ (t.map renderRow).flatten, isTableStart e = false := by
  intro e he
  rw [List.mem_flatten] at he
  obtain ⟨l, hl, hel⟩ := he
  rw [List.mem_map] at hl
  obtain ⟨r, _, rfl⟩ := hl
  unfold renderRow at hel
  rcases List.mem_cons.mp hel with rfl | hel
  · decide
  rcases List.mem_append.mp hel with hel | hel
  · rw [List.mem_flatten] at hel
    obtain ⟨l2, hl2, hel2⟩ := hel
    rw [List.mem_map] at hl2
    obtain ⟨c, _, rfl⟩ := hl2
    unfold renderCell at hel2
    rcases List.mem_cons.mp hel2 with rfl | hel2
    · decide
    rcases List.mem_append.mp hel2 with hel2 | hel2
    · obtain ⟨tok, _, rfl⟩ := List.mem_map.mp hel2
      exact isTableStart_renderTok tok
    · rw [List.mem_singleton] at hel2
      subst hel2
      rfl
  · rw [List.mem_singleton] at hel
    subst hel
    rfl

lemma run_tableMiss (t : Table) (st : ScannerState) (hc : st.capture = false)
    (h : ¬ st.current_index + 1 = st.target_index) :
    runEvents st (renderTable t) =
      { st with current_index := st.current_index + 1 } := by
  unfold renderTable
  rw [runEvents_cons]
  simp only [step]
  rw [starttag_table_miss st hc h, runEvents_append]
  rw [run_skip _ { st with current_index := st.current_index + 1 } hc
    (no_tableStart_interior t)]
  rw [runEvents_cons, runEvents_nil]
  simp only [step]
  exact endtag_skip { st with current_index := st.current_index + 1 } "table" hc

lemma run_tableHit (t : Table) (st : ScannerState)
    (hit : st.current_index + 1 = st.target_index)
    (hir : st.in_row = false) (hic : st.in_cell = false)
    (hcr : st.current_row = []) (hcp : st.cell_parts = []) :
    runEvents st (renderTable t) =
      { st with current_index := st.current_index + 1, capture := false,
                table_depth := 0, rows := st.rows ++ tableRows t } := by
  unfold renderTable
  rw [runEvents_cons]
  simp only [step]
  rw [starttag_table_hit st hit, runEvents_append]
  rw [run_rows t { st with current_index := st.current_index + 1, capture := true,
                           table_depth := 1 } rfl hir hic hcr hcp]
  rw [runEvents_cons, runEvents_nil]
  simp only [step]
  rw [endtag_table_capture { st with current_index := st.current_index + 1,
                                     capture := true, table_depth := 1,
                                     rows := st.rows ++ tableRows t } rfl]
  norm_num

lemma run_tableNested (t : Table) (st : ScannerState) (hc : st.capture = true)
    (hge : st.target_index ≤ st.current_index) (hd : 1 ≤ st.table_depth)
    (hir : st.in_row = false) (hic : st.in_cell = false)
    (hcr : st.current_row = []) (hcp : st.cell_parts = []) :
    runEvents st (renderTable t) =
      { st with current_index := st.current_index + 1,
                rows := st.rows ++ tableRows t } := by
  unfold renderTable
  rw [runEvents_cons]
  simp only [step]
  rw [starttag_table_nested st hc (by omega), runEvents_append]
  rw [run_rows t { st with current_index := st.current_index + 1,
                           table_depth := st.table_depth + 1 } hc hir hic hcr hcp]
  rw [runEvents_cons, runEvents_nil]
  simp only [step]
  rw [endtag_table_capture { st with current_index := st.current_index + 1,
                                     table_depth := st.table_depth + 1,
                                     rows := st.rows ++ tableRows t } hc]
  rw [if_neg (by simp; omega)]
  simp

lemma selectedRows_neg (ts : List Table) (k : Int) (hk : k < 0) :
    selectedRows ts k = [] := by
  induction ts generalizing k with
  | nil => rfl
  | cons t ts ih =>
    rw [selectedRows, if_neg (by omega)]
    exact ih _ (by omega)

lemma selectedRows_ofNat (ts : List Table) (i : Nat) (h : i < ts.length) :
    selectedRows ts (i : Int) = tableRows (ts.getD i []) := by
  induction ts generalizing i with
  | nil => simp at h
  | cons t ts ih =>
    cases i with
    | zero => simp [selectedRows]
    | succ n =>
      rw [selectedRows, if_neg (by push_cast; omega)]
      have hsub : ((n + 1 : Nat) : Int) - 1 = (n : Int) := by push_cast; ring
      rw [hsub, ih n (by simpa using h)]
      simp

lemma run_renderTables (ts : List Table) (st : ScannerState) (hc : st.capture = false)
    (hd : st.table_depth = 0) (hir : st.in_row = false) (hic : st.in_cell = false)
    (hcr : st.current_row = []) (hcp : st.cell_parts = []) :
    runEvents st (renderTables ts) =
      { st with current_index := st.current_index + (ts.length : Int),
                rows := st.rows ++
                  selectedRows ts (st.target_index - st.current_index - 1) } := by
  induction ts generalizing st with
  | nil => simp [renderTables, runEvents_nil, selectedRows]
  | cons t ts ih =>
    rw [renderTables, List.map_cons, List.flatten_cons, runEvents_append]
    rw [show (List.map renderTable ts).flatten = renderTables ts from rfl]
    by_cases hk : st.current_index + 1 = st.target_index
    · rw [run_tableHit t st hk hir hic hcr hcp]
      rw [ih { st with current_index := st.current_index + 1, capture := false,
                       table_depth := 0, rows := st.rows ++ tableRows t }
            rfl rfl hir hic hcr hcp]
      rw [selectedRows, if_pos (by omega)]
      have hneg : st.target_index - (st.current_index + 1) - 1 < 0 := by omega
      rw [selectedRows_neg ts _ hneg]
      simp [hc, hd, List.append_assoc]
      ring
    · rw [run_tableMiss t st hc hk]
      rw [ih { st with current_index := st.current_index + 1 } hc hd hir hic hcr hcp]
      rw [selectedRows, if_neg (by omega)]
      have harg : st.target_index - (st.current_index + 1) - 1 =
          st.target_index - st.current_index - 1 - 1 := by ring
      rw [harg]
      simp [List.append_assoc]
      ring

lemma starttag_anytable_miss (st : ScannerState) (tag : String)
    (hlow : pyLower tag = "table") (hc : st.capture = false)
    (h : ¬ st.current_index + 1 = st.target_index) :
    handle_starttag st tag = { st with current_index := st.current_index + 1 } := by
  simp [handle_starttag, hlow, hc, h]

lemma step_captureInv (st : ScannerState) (e : Event) (h : CaptureInv st) :
    CaptureInv (step st e) := by
  unfold CaptureInv at h ⊢
  cases e <;>
    simp only [step, handle_starttag, handle_endtag, handle_data,
      handle_startendtag] <;>
    split_ifs <;> simp_all <;> omega

lemma run_captureInv (es : List Event) (st : ScannerState) (h : CaptureInv st) :
    CaptureInv (runEvents st es) := by
  induction es generalizing st with
  | nil => exact h
  | cons e es ih => exact ih _ (step_captureInv st e h)

lemma captureInv_init (i : Int) : CaptureInv (initStateOf i) := by
  intro h
  simp [initStateOf] at h

lemma numTables_cons (e : Event) (es : List Event) :
    numTables (e :: es) = numTables es + (if isTableStart e then 1 else 0) :=
  List.countP_cons ..

lemma run_no_capture (es : List Event) (st : ScannerState) (hc : st.capture = false)
    (h : st.current_index + (numTables es : Int) < st.target_index) :
    runEvents st es =
      { st with current_index := st.current_index + (numTables es : Int) } := by
  induction es generalizing st with
  | nil => simp [runEvents_nil, numTables]
  | cons e es ih =>
    rw [runEvents_cons]
    have hcount := numTables_cons e es
    cases e with
    | startTag t =>
      by_cases hlow : pyLower t = "table"
      · have hT : isTableStart (Event.startTag t) = true := by
          simp [isTableStart, hlow]
        rw [hT, if_pos rfl] at hcount
        have h' : st.current_index + 1 + (numTables es : Int) < st.target_index := by
          rw [hcount] at h
          push_cast at h
          omega
        have hne : ¬ st.current_index + 1 = st.target_index := by
          have : (0 : Int) ≤ (numTables es : Int) := Int.natCast_nonneg _
          omega
        simp only [step]
        rw [starttag_anytable_miss st t hlow hc hne]
        rw [ih { st with current_index := st.current_index + 1 } hc h']
        have harith : st.current_index + 1 + (numTables es : Int) =
            st.current_index + (numTables (Event.startTag t :: es) : Int) := by
          rw [hcount]
          push_cast
          ring
        rw [harith]
      · have hT : isTableStart (Event.startTag t) = false := by
          simp [isTableStart, hlow]
        rw [hT, if_neg (by simp)] at hcount
        rw [step_skip st _ hc hT]
        rw [ih st hc (by rw [hcount] at h; simpa using h)]
        rw [hcount]
        norm_num
    | endTag t =>
      have hT : isTableStart (Event.endTag t) = false := rfl
      rw [hT, if_neg (by simp)] at hcount
      rw [step_skip st _ hc hT]
      rw [ih st hc (by rw [hcount] at h; simpa using h)]
      rw [hcount]
      norm_num
    | data d =>
      have hT : isTableStart (Event.data d) = false := rfl
      rw [hT, if_neg (by simp)] at hcount
      rw [step_skip st _ hc hT]
      rw [ih st hc (by rw [hcount] at h; simpa using h)]
      rw [hcount]
      norm_num
    | startEndTag t =>
      have hT : isTableStart (Event.startEndTag t) = false := rfl
      rw [hT, if_neg (by simp)] at hcount
      rw [step_skip st _ hc hT]
      rw [ih st hc (by rw [hcount] at h; simpa using h)]
      rw [hcount]
      norm_num

lemma step_rows (st : ScannerState) (e : Event) :
    (step st e).rows = st.rows ∨
    ((step st e).rows = st.rows ++ [st.current_row] ∧ st.current_row ≠ []) := by
  cases e <;>
    simp only [step, handle_starttag, handle_endtag, handle_data,
      handle_startendtag] <;>
    split_ifs <;> simp_all

lemma fetch_table_rows_nonneg (es : List Event) (i : Int) (hi : 0 ≤ i) :
    fetch_table_rows es i =
      (if (runEvents (initStateOf i) es).rows = [] then
        Except.error
          "No table rows were found. Check that the page structure has not changed."
      else
        Except.ok (runEvents (initStateOf i) es).rows) := by
  unfold fetch_table_rows initScanner
  rw [if_neg (by omega)]

/-! ### The claims -/

/-- **C1.** For markup consisting of sibling tables (no nesting) and any
target index `i` in range, the scanner output is exactly the ordered row
sequence belonging to the `i`-th table (zero-based) — the rows of that table
in order, each cell finalized, rows without cells dropped — so no row of any
other sibling table appears in the output. -/
theorem C1_sibling_table_isolation (ts : List Table) (i : Nat) (h : i < ts.length) :
    (runEvents (initStateOf (i : Int)) (renderTables ts)).rows =
      tableRows (ts.getD i []) := by
  rw [run_renderTables ts (initStateOf (i : Int)) rfl rfl rfl rfl rfl rfl]
  show ([] : List (List String)) ++ selectedRows ts ((i : Int) - (-1) - 1) = _
  rw [List.nil_append, show ((i : Int) - (-1) - 1) = (i : Int) from by ring]
  exact selectedRows_ofNat ts i h

theorem C1_witness :
    1 < tablesEx.length ∧
      (runEvents (initStateOf ((1 : Nat) : Int)) (renderTables tablesEx)).rows =
        tableRows (tablesEx.getD 1 []) :=
  ⟨by decide, C1_sibling_table_isolation tablesEx 1 (by decide)⟩

/-- **C3.** Whenever the scan finishes with zero captured rows — in
particular whenever the target index is at least the number of tables in the
markup — `fetch_table_rows` raises the not-found `ValueError` instead of
returning an empty row sequence. -/
theorem C3_empty_scan_raises (es : List Event) (i : Nat) :
    ((runEvents (initStateOf (i : Int)) es).rows = [] →
      fetch_table_rows es (i : Int) = Except.error
        "No table rows were found. Check that the page structure has not changed.") ∧
    (numTables es ≤ i →
      fetch_table_rows es (i : Int) = Except.error
        "No table rows were found. Check that the page structure has not changed.") := by
  have key : (runEvents (initStateOf (i : Int)) es).rows = [] →
      fetch_table_rows es (i : Int) = Except.error
        "No table rows were found. Check that the page structure has not changed." := by
    intro hrows
    rw [fetch_table_rows_nonneg es _ (by omega), if_pos hrows]
  refine ⟨key, fun hn => key ?_⟩
  have hlt : (initStateOf (i : Int)).current_index + (numTables es : Int) <
      (initStateOf (i : Int)).target_index := by
    simp only [initStateOf]
    omega
  rw [run_no_capture es (initStateOf (i : Int)) rfl hlt]
  rfl

theorem C3_witness :
    numTables (renderTables [[[[CellTok.txt "A"]]]]) ≤ 1 ∧
      fetch_table_rows (renderTables [[[[CellTok.txt "A"]]]]) ((1 : Nat) : Int) =
        Except.error
          "No table rows were found. Check that the page structure has not changed." :=
  ⟨by decide, (C3_empty_scan_raises (renderTables [[[[CellTok.txt "A"]]]]) 1).2 (by decide)⟩

/-- **C4.** A negative target index makes the constructor raise the
invalid-argument `ValueError`, so `fetch_table_rows` fails with that error
for every event stream — before any scanning happens. -/
theorem C4_negative_index_rejected (i : Int) (hi : i < 0) :
    initScanner i = Except.error "table index must be >= 0" ∧
    ∀ es : List Event,
      fetch_table_rows es i = Except.error "table index must be >= 0" := by
  constructor
  · unfold initScanner
    rw [if_pos hi]
  · intro es
    unfold fetch_table_rows initScanner
    rw [if_pos hi]

theorem C4_witness :
    (-1 : Int) < 0 ∧
      fetch_table_rows [Event.startTag "table"] (-1) =
        Except.error "table index must be >= 0" :=
  ⟨by decide, (C4_negative_index_rejected (-1) (by decide)).2 [Event.startTag "table"]⟩

/-- **C5.** A row-close boundary appends the accumulated row only when it
has at least one cell, so every scanner step preserves the invariant that
every output row is non-empty; in particular an empty row accumulator
appends nothing. -/
theorem C5_no_empty_rows :
    (∀ (st : ScannerState) (e : Event),
      (∀ r ∈ st.rows, r ≠ []) → ∀ r ∈ (step st e).rows, r ≠ []) ∧
    (∀ st : ScannerState, st.current_row = [] →
      (handle_endtag st "tr").rows = st.rows) := by
  constructor
  · intro st e hinv r hr
    rcases step_rows st e with h | ⟨h, hne⟩
    · exact hinv r (h ▸ hr)
    · rw [h] at hr
      rcases List.mem_append.mp hr with hr | hr
      · exact hinv r hr
      · rw [List.mem_singleton] at hr
        subst hr
        exact hne
  · intro st hcr
    simp only [handle_endtag]
    split_ifs <;> simp_all

theorem C5_witness :
    (∀ r ∈ stRowsEx.rows, r ≠ []) ∧ (["A"] : List String) ≠ [] :=
  ⟨by decide,
    C5_no_empty_rows.1 stRowsEx (Event.endTag "tr") (by decide) ["A"] (by decide)⟩

/-- **C6.** In any reachable capturing state: a table-open boundary
increments the nesting depth (and capture continues), a table-close boundary
decrements it and stops capture exactly when the depth returns to zero, and
a whole nested table encountered while capturing folds its rows into the
captured table's output. -/
theorem C6_depth_tracking (i : Int) (es : List Event) (st : ScannerState)
    (hst : runEvents (initStateOf i) es = st) (hcap : st.capture = true) :
    ((handle_starttag st "table").table_depth = st.table_depth + 1 ∧
      (handle_starttag st "table").capture = true) ∧
    ((handle_endtag st "table").table_depth = st.table_depth - 1 ∧
      ((handle_endtag st "table").capture = false ↔ st.table_depth - 1 = 0)) ∧
    (∀ t : Table, st.in_row = false → st.in_cell = false →
      st.current_row = [] → st.cell_parts = [] →
      runEvents st (renderTable t) =
        { st with current_index := st.current_index + 1,
                  rows := st.rows ++ tableRows t }) := by
  have hinv := run_captureInv es (initStateOf i) (captureInv_init i)
  rw [hst] at hinv
  obtain ⟨hge, hd⟩ := hinv hcap
  refine ⟨⟨?_, ?_⟩, ⟨?_, ?_⟩, ?_⟩
  · rw [starttag_table_nested st hcap (by omega)]
  · rw [starttag_table_nested st hcap (by omega)]
    exact hcap
  · rw [endtag_table_capture st hcap]
    split_ifs <;> rfl
  · rw [endtag_table_capture st hcap]
    by_cases h0 : st.table_depth - 1 = 0
    · rw [if_pos h0]
      simp [h0]
    · rw [if_neg h0]
      simp [hcap, h0]
  · intro t hir hic hcr hcp
    exact run_tableNested t st hcap hge hd hir hic hcr hcp

theorem C6_witness :
    (runEvents (initStateOf 0) [Event.startTag "table"] = stEx ∧
      stEx.capture = true) ∧
    (handle_starttag stEx "table").table_depth = stEx.table_depth + 1 ∧
    (handle_starttag stEx "table").capture = true :=
  ⟨⟨by decide, rfl⟩,
    (C6_depth_tracking 0 [Event.startTag "table"] stEx (by decide) rfl).1⟩

/-- **C8.** A line-break marker delivered as a self-closing tag produces the
same scanner state as the same marker delivered as a start tag, for every
state. -/
theorem C8_br_startendtag_eq_starttag (st : ScannerState) :
    handle_startendtag st "br" = handle_starttag st "br" := by
  by_cases hc : st.capture = true
  · by_cases hic : st.in_cell = true
    · rw [startendtag_br st hc hic, starttag_br_in_cell st hc hic]
    · have hic2 : st.in_cell = false := by
        revert hic
        cases st.in_cell <;> simp
      simp [handle_startendtag, handle_starttag, hc, hic2]
  · have hc2 : st.capture = false := by
      revert hc
      cases st.capture <;> simp
    rw [startendtag_skip st "br" hc2, starttag_skip st "br" hc2 (by decide)]

/-- **C10.** A text-data event received while not capturing, or while no
cell is open, leaves the scanner state unchanged; hence inserting such a
data event anywhere in a run does not change the result. -/
theorem C10_data_outside_cell_noop :
    (∀ (st : ScannerState) (d : String),
      st.capture = false ∨ st.in_cell = false → handle_data st d = st) ∧
    (∀ (st : ScannerState) (pre post : List Event) (d : String),
      (runEvents st pre).capture = false ∨ (runEvents st pre).in_cell = false →
      runEvents st (pre ++ Event.data d :: post) = runEvents st (pre ++ post)) := by
  constructor
  · exact fun st d h => data_skip st d h
  · intro st pre post d h
    rw [runEvents_append, runEvents_append, runEvents_cons]
    simp only [step]
    rw [data_skip _ d h]

theorem C10_witness :
    ((initStateOf 0).capture = false ∨ (initStateOf 0).in_cell = false) ∧
      handle_data (initStateOf 0) "x" = initStateOf 0 :=
  ⟨Or.inl rfl, C10_data_outside_cell_noop.1 (initStateOf 0) "x" (Or.inl rfl)⟩

/-! ### String normalization lemmas -/

lemma intercalChar_nil (sep : Char) : intercalChar sep [] = [] := rfl

lemma intercalChar_single (sep : Char) (l : List Char) : intercalChar sep [l] = l := rfl

lemma intercalChar_cons2 (sep : Char) (l l2 : List Char) (ls : List (List Char)) :
    intercalChar sep (l :: l2 :: ls) = l ++ sep :: intercalChar sep (l2 :: ls) := rfl

lemma dropWhile_rdropWhile_dropWhile (p : Char → Bool) (l : List Char) :
    List.dropWhile p (List.rdropWhile p (List.dropWhile p l)) =
      List.rdropWhile p (List.dropWhile p l) := by
  cases hm : List.dropWhile p l with
  | nil => simp [List.rdropWhile]
  | cons a t =>
    have ha : p a = false := by
      have h2 := List.head?_dropWhile_not p l
      rw [hm] at h2
      simpa using h2
    rw [List.rdropWhile, List.reverse_cons, List.dropWhile_append]
    by_cases he : (List.dropWhile p t.reverse).isEmpty
    · rw [if_pos he]
      rw [List.dropWhile_cons_of_neg (by simp [ha])]
      simp [List.dropWhile_cons_of_neg, ha]
    · rw [if_neg he, List.reverse_append, List.reverse_singleton]
      simp only [List.singleton_append]
      rw [List.dropWhile_cons_of_neg (by simp [ha])]

lemma stripChars_idem (l : List Char) : stripChars (stripChars l) = stripChars l := by
  unfold stripChars
  rw [dropWhile_rdropWhile_dropWhile]
  exact List.rdropWhile_idempotent _ _

lemma pyStrip_idem (s : String) : pyStrip (pyStrip s) = pyStrip s :=
  congrArg String.mk (stripChars_idem s.data)

lemma mem_stripChars {c : Char} {l : List Char} (h : c ∈ stripChars l) : c ∈ l := by
  unfold stripChars List.rdropWhile at h
  rw [List.mem_reverse] at h
  have h1 : c ∈ (List.dropWhile isPySpace l).reverse :=
    (List.dropWhile_suffix isPySpace).sublist.subset h
  rw [List.mem_reverse] at h1
  exact (List.dropWhile_suffix isPySpace).sublist.subset h1

lemma stripChars_all_space (l : List Char) (h : ∀ c ∈ l, isPySpace c = true) :
    stripChars l = [] := by
  unfold stripChars
  rw [List.dropWhile_eq_nil_iff.mpr h]
  exact List.rdropWhile_nil isPySpace

lemma pyStrip_all_space (s : String) (h : ∀ c ∈ s.data, isPySpace c = true) :
    pyStrip s = "" :=
  congrArg String.mk (stripChars_all_space s.data h)

lemma splitWsAux_all_space (cs : List Char) (h : ∀ c ∈ cs, isPySpace c = true) :
    splitWsAux cs [] = [] := by
  induction cs with
  | nil => rfl
  | cons c cs ih =>
    unfold splitWsAux
    rw [if_pos (h c (by simp))]
    simp only [List.isEmpty_nil, if_true]
    exact ih fun c hc => h c (by simp [hc])

lemma splitlinesAux_chars (P : Char → Prop) (cs acc : List Char)
    (hcs : ∀ c ∈ cs, P c) (hacc : ∀ c ∈ acc, P c) :
    ∀ l ∈ splitlinesAux cs acc, ∀ c ∈ l, P c := by
  induction cs, acc using splitlinesAux.induct with
  | case1 acc hemp =>
    intro l hl
    unfold splitlinesAux at hl
    rw [if_pos hemp] at hl
    simp at hl
  | case2 acc hemp =>
    intro l hl
    unfold splitlinesAux at hl
    rw [if_neg hemp] at hl
    rw [List.mem_singleton] at hl
    subst hl
    intro c hc
    exact hacc c (List.mem_reverse.mp hc)
  | case3 acc =>
    intro l hl
    unfold splitlinesAux at hl
    rw [if_pos rfl] at hl
    rw [List.mem_singleton] at hl
    subst hl
    intro c hc
    exact hacc c (List.mem_reverse.mp hc)
  | case4 acc cs2 ih =>
    intro l hl
    unfold splitlinesAux at hl
    rw [if_pos rfl] at hl
    simp only [if_pos rfl] at hl
    rcases List.mem_cons.mp hl with rfl | hl
    · intro c hc
      exact hacc c (List.mem_reverse.mp hc)
    · exact ih (fun c hc => hcs c (by simp [hc])) (by simp) l hl
  | case5 acc c2 cs2 hc2 ih =>
    intro l hl
    unfold splitlinesAux at hl
    rw [if_pos rfl] at hl
    simp only [if_neg hc2] at hl
    rcases List.mem_cons.mp hl with rfl | hl
    · intro c hc
      exact hacc c (List.mem_reverse.mp hc)
    · exact ih (fun c hc => hcs c (by simp at hc ⊢; tauto)) (by simp) l hl
  | case6 c cs acc hcr hlb ih =>
    intro l hl
    unfold splitlinesAux at hl
    rw [if_neg hcr, if_pos hlb] at hl
    rcases List.mem_cons.mp hl with rfl | hl
    · intro c hc
      exact hacc c (List.mem_reverse.mp hc)
    · exact ih (fun c hc => hcs c (by simp [hc])) (by simp) l hl
  | case7 c cs acc hcr hlb ih =>
    intro l hl
    unfold splitlinesAux at hl
    rw [if_neg hcr, if_neg hlb] at hl
    refine ih (fun c hc => hcs c (by simp [hc])) ?_ l hl
    intro c2 hc2
    rcases List.mem_cons.mp hc2 with rfl | hc2
    · exact hcs c2 (by simp)
    · exact hacc c2 hc2

lemma splitlinesAux_no_nl (cs acc : List Char) (hacc : ∀ c ∈ acc, ¬ c = '\n') :
    ∀ l ∈ splitlinesAux cs acc, ∀ c ∈ l, ¬ c = '\n' := by
  induction cs, acc using splitlinesAux.induct with
  | case1 acc hemp =>
    intro l hl
    unfold splitlinesAux at hl
    rw [if_pos hemp] at hl
    simp at hl
  | case2 acc hemp =>
    intro l hl
    unfold splitlinesAux at hl
    rw [if_neg hemp] at hl
    rw [List.mem_singleton] at hl
    subst hl
    intro c hc
    exact hacc c (List.mem_reverse.mp hc)
  | case3 acc =>
    intro l hl
    unfold splitlinesAux at hl
    rw [if_pos rfl] at hl
    rw [List.mem_singleton] at hl
    subst hl
    intro c hc
    exact hacc c (List.mem_reverse.mp hc)
  | case4 acc cs2 ih =>
    intro l hl
    unfold splitlinesAux at hl
    rw [if_pos rfl] at hl
    simp only [if_pos rfl] at hl
    rcases List.mem_cons.mp hl with rfl | hl
    · intro c hc
      exact hacc c (List.mem_reverse.mp hc)
    · exact ih (by simp) l hl
  | case5 acc c2 cs2 hc2 ih =>
    intro l hl
    unfold splitlinesAux at hl
    rw [if_pos rfl] at hl
    simp only [if_neg hc2] at hl
    rcases List.mem_cons.mp hl with rfl | hl
    · intro c hc
      exact hacc c (List.mem_reverse.mp hc)
    · exact ih (by simp) l hl
  | case6 c cs acc hcr hlb ih =>
    intro l hl
    unfold splitlinesAux at hl
    rw [if_neg hcr, if_pos hlb] at hl
    rcases List.mem_cons.mp hl with rfl | hl
    · intro c hc
      exact hacc c (List.mem_reverse.mp hc)
    · exact ih (by simp) l hl
  | case7 c cs acc hcr hlb ih =>
    intro l hl
    unfold splitlinesAux at hl
    rw [if_neg hcr, if_neg hlb] at hl
    refine ih ?_ l hl
    intro c2 hc2
    rcases List.mem_cons.mp hc2 with rfl | hc2
    · intro hc2n
      subst hc2n
      exact hlb (by decide)
    · exact hacc c2 hc2

lemma joinParts_chars (P : Char → Prop) (parts : List String)
    (h : ∀ s ∈ parts, ∀ c ∈ s.data, P c) : ∀ c ∈ (joinParts parts).data, P c := by
  intro c hc
  unfold joinParts at hc
  rw [show (String.mk (parts.map String.data).flatten).data =
      (parts.map String.data).flatten from rfl] at hc
  rw [List.mem_flatten] at hc
  obtain ⟨l, hl, hcl⟩ := hc
  rw [List.mem_map] at hl
  obtain ⟨s, hs, rfl⟩ := hl
  exact h s hs c hcl

lemma replaceNbsp_chars (s : String) (h : ∀ c ∈ s.data, isPySpace c = true) :
    ∀ c ∈ (replaceNbsp s).data, isPySpace c = true := by
  intro c hc
  unfold replaceNbsp at hc
  rw [show (String.mk (s.data.map fun c => if c = nbsp then ' ' else c)).data =
      s.data.map (fun c => if c = nbsp then ' ' else c) from rfl] at hc
  rw [List.mem_map] at hc
  obtain ⟨c0, hc0, rfl⟩ := hc
  by_cases hn : c0 = nbsp
  · rw [if_pos hn]
    decide
  · rw [if_neg hn]
    exact h c0 hc0

lemma pySplitlines_chars (P : Char → Prop) (s : String) (h : ∀ c ∈ s.data, P c) :
    ∀ l ∈ pySplitlines s, ∀ c ∈ l.data, P c := by
  intro l hl
  unfold pySplitlines at hl
  rw [List.mem_map] at hl
  obtain ⟨l0, hl0, rfl⟩ := hl
  exact splitlinesAux_chars P s.data [] h (by simp) l0 hl0

lemma pySplitlines_no_nl (s : String) :
    ∀ l ∈ pySplitlines s, ∀ c ∈ l.data, ¬ c = '\n' := by
  intro l hl
  unfold pySplitlines at hl
  rw [List.mem_map] at hl
  obtain ⟨l0, hl0, rfl⟩ := hl
  exact splitlinesAux_no_nl s.data [] (by simp) l0 hl0

lemma pyStrip_chars (P : Char → Prop) (s : String) (h : ∀ c ∈ s.data, P c) :
    ∀ c ∈ (pyStrip s).data, P c := by
  intro c hc
  exact h c (mem_stripChars hc)

lemma hasNl_joinNl (lines : List String)
    (h : ∀ l ∈ lines, ∀ c ∈ l.data, ¬ c = '\n') :
    hasNl (joinNl lines) = decide (2 ≤ lines.length) := by
  cases lines with
  | nil => rfl
  | cons l1 rest =>
    cases rest with
    | nil =>
      unfold hasNl joinNl
      rw [List.map_singleton, intercalChar_single]
      have hany : l1.data.any (fun c => c == '\n') = false := by
        rw [List.any_eq_false]
        intro c hc
        simp only [beq_iff_eq]
        exact h l1 (by simp) c hc
      rw [hany]
      simp
    | cons l2 rest2 =>
      have hlen : decide (2 ≤ (l1 :: l2 :: rest2).length) = true := by
        simp [List.length_cons]
      rw [hlen]
      unfold hasNl joinNl
      rw [List.map_cons, List.map_cons, intercalChar_cons2]
      rw [List.any_eq_true]
      exact ⟨'\n', by simp, by simp⟩

lemma finalizeCell_eq_strip_spec (parts : List String) :
    finalizeCell parts = pyStrip (specCellText parts) := by
  unfold finalizeCell specCellText
  dsimp only
  have hnl : ∀ l ∈ (pySplitlines (replaceNbsp (joinParts parts))).map pyStrip,
      ∀ c ∈ l.data, ¬ c = '\n' := by
    intro l hl
    rw [List.mem_map] at hl
    obtain ⟨l0, hl0, rfl⟩ := hl
    exact pyStrip_chars _ l0 (pySplitlines_no_nl _ l0 hl0)
  rw [hasNl_joinNl _ hnl]
  by_cases h2 : 2 ≤ ((pySplitlines (replaceNbsp (joinParts parts))).map pyStrip).length
  · rw [if_pos (by simpa using h2), if_pos h2]
  · rw [if_neg (by simpa using h2), if_neg h2]

lemma finalize_text2_all_space (t : String) (h : ∀ c ∈ t.data, isPySpace c = true) :
    ∀ c ∈ (joinNl ((pySplitlines t).map pyStrip)).data, isPySpace c = true := by
  intro c hc
  unfold joinNl at hc
  rw [show (String.mk (intercalChar '\n'
      (((pySplitlines t).map pyStrip).map String.data))).data =
      intercalChar '\n' (((pySplitlines t).map pyStrip).map String.data) from rfl] at hc
  -- every list entering the join is empty, because each line strips to ""
  have hlines : ∀ l ∈ ((pySplitlines t).map pyStrip).map String.data, ∀ c2 ∈ l, isPySpace c2 = true := by
    intro l hl
    rw [List.mem_map] at hl
    obtain ⟨s, hs, rfl⟩ := hl
    rw [List.mem_map] at hs
    obtain ⟨l0, hl0, rfl⟩ := hs
    have : pyStrip l0 = "" :=
      pyStrip_all_space l0 (pySplitlines_chars (fun c => isPySpace c = true) t h l0 hl0)
    rw [this]
    intro c2 hc2
    simp at hc2
  -- characters of the join are either a separator or from a list entry
  revert hc
  generalize ((pySplitlines t).map pyStrip).map String.data = ls at hlines
  induction ls with
  | nil => intro hc; simp [intercalChar_nil] at hc
  | cons l ls ih =>
    cases ls with
    | nil =>
      intro hc
      rw [intercalChar_single] at hc
      exact hlines l (by simp) c hc
    | cons l2 ls2 =>
      intro hc
      rw [intercalChar_cons2] at hc
      rcases List.mem_append.mp hc with hc | hc
      · exact hlines l (by simp) c hc
      · rcases List.mem_cons.mp hc with rfl | hc
        · decide
        · exact ih (fun l3 hl3 => hlines l3 (by simp at hl3 ⊢; tauto)) hc

lemma finalizeCell_all_space (parts : List String)
    (h : ∀ s ∈ parts, ∀ c ∈ s.data, isPySpace c = true) :
    finalizeCell parts = "" := by
  unfold finalizeCell
  dsimp only
  have ht : ∀ c ∈ (replaceNbsp (joinParts parts)).data, isPySpace c = true :=
    replaceNbsp_chars _ (joinParts_chars _ parts h)
  have h2 := finalize_text2_all_space _ ht
  by_cases hn : hasNl (joinNl ((pySplitlines (replaceNbsp (joinParts parts))).map pyStrip)) = true
  · rw [if_pos hn]
    exact pyStrip_all_space _ h2
  · rw [if_neg hn]
    unfold pySplitWs
    rw [splitWsAux_all_space _ h2]
    rfl

/-- **C2 (counterexample).** The claimed normalization (no final trim) and
the code differ on a cell whose fragments begin with a line break: the code
appends `text.strip()`, so the leading empty line is trimmed away, while the
claimed pipeline keeps it. -/
theorem C2_counterexample :
    ¬ finalizeCell ["\nA"] = specCellText ["\nA"] := by decide

/-- **C2 (amended).** For every fragment sequence, the finalized cell string
is the spec pipeline (replace non-breaking spaces, split on line separators,
trim each line, rejoin with line separators if multiple lines existed,
otherwise collapse whitespace runs) followed by a final trim of the result;
in particular the two-line cell `Flight AB1` / `Gate 3` keeps its line
separator instead of being collapsed. -/
theorem C2_cell_normalization :
    (∀ parts : List String, finalizeCell parts = pyStrip (specCellText parts)) ∧
      finalizeCell ["Flight AB1", "\n", "Gate 3"] = "Flight AB1\nGate 3" :=
  ⟨finalizeCell_eq_strip_spec, by decide⟩

/-- **C7.** A cell whose accumulated fragments consist only of whitespace
and non-breaking-space characters (line-break markers included) finalizes to
the empty string. -/
theorem C7_all_space_cell_empty (parts : List String)
    (h : ∀ s ∈ parts, ∀ c ∈ s.data, isPySpace c = true) :
    finalizeCell parts = "" :=
  finalizeCell_all_space parts h

theorem C7_witness :
    (∀ s ∈ ([" \t", "\xa0\n", ""] : List String), ∀ c ∈ s.data, isPySpace c = true) ∧
      finalizeCell [" \t", "\xa0\n", ""] = "" :=
  ⟨by decide, C7_all_space_cell_empty [" \t", "\xa0\n", ""] (by decide)⟩

lemma finalizeCell_stripped (parts : List String) :
    pyStrip (finalizeCell parts) = finalizeCell parts := by
  unfold finalizeCell
  dsimp only
  exact pyStrip_idem _

lemma step_strippedInv (st : ScannerState) (e : Event) (h : StrippedInv st) :
    StrippedInv (step st e) := by
  obtain ⟨h1, h2⟩ := h
  cases e with
  | startTag t =>
    simp only [step, handle_starttag]
    split_ifs <;> first
      | exact ⟨h1, h2⟩
      | exact ⟨h1, by simp⟩
  | endTag t =>
    simp only [step, handle_endtag]
    split_ifs with hc1 hc2 hc3 hc4 hc5
    · exact ⟨h1, h2⟩
    · exact ⟨h1, h2⟩
    · exact ⟨h1, h2⟩
    · refine ⟨h1, fun c hc => ?_⟩
      rcases List.mem_append.mp hc with hc | hc
      · exact h2 c hc
      · rw [List.mem_singleton] at hc
        subst hc
        exact finalizeCell_stripped _
    · refine ⟨fun r hr => ?_, by simp⟩
      rcases List.mem_append.mp hr with hr | hr
      · exact h1 r hr
      · rw [List.mem_singleton] at hr
        subst hr
        exact h2
    · exact ⟨h1, by simp⟩
    · exact ⟨h1, h2⟩
  | data d =>
    simp only [step, handle_data]
    split_ifs <;> exact ⟨h1, h2⟩
  | startEndTag t =>
    simp only [step, handle_startendtag]
    split_ifs <;> exact ⟨h1, h2⟩

lemma run_strippedInv (es : List Event) (st : ScannerState) (h : StrippedInv st) :
    StrippedInv (runEvents st es) := by
  induction es generalizing st with
  | nil => exact h
  | cons e es ih => exact ih _ (step_strippedInv st e h)

/-- **C9.** Every cell string appearing in the scanner output rows carries
no leading or trailing whitespace: stripping it again changes nothing.  This
holds for every event stream and every target index. -/
theorem C9_cells_stripped (i : Int) (es : List Event) (r : List String) (c : String)
    (hr : r ∈ (runEvents (initStateOf i) es).rows) (hc : c ∈ r) :
    pyStrip c = c := by
  have h := run_strippedInv es (initStateOf i) ⟨by simp [initStateOf], by simp [initStateOf]⟩
  exact h.1 r hr c hc

theorem C9_witness :
    (["A"] ∈ (runEvents (initStateOf 0) c9Events).rows ∧
      "A" ∈ (["A"] : List String)) ∧ pyStrip "A" = "A" :=
  ⟨⟨by decide, by decide⟩,
    C9_cells_stripped 0 c9Events ["A"] "A" (by decide) (by decide)⟩

end HanairData
